import Mathlib

/-!
Verification of the HDRI sun-locator core (`Dataset_Tools/hdri_operators.py`).

Shallow embedding conventions:
* numpy / Python float arithmetic is modelled over `ℚ` where the code only
  uses field operations, and over `ℝ` where it uses `sqrt`, `exp`, trig or
  the FFT;
* images are functions from (row, column) coordinates;
* Python `int(x)` on a non-negative value is mathematical floor.
-/

open scoped BigOperators
open scoped Classical

/-! ## Angular mapping (process_hdri, lines 262-264)

`long_deg = ((max_x * 360) / width) - 180`
`lat_deg  = -(((max_y * -180) / height) + 90)` -/

/-- Longitude in degrees computed by `process_hdri` from the peak column `x`
and the image width. -/
def long_deg (x width : ℕ) : ℚ :=
  ((x : ℚ) * 360) / (width : ℚ) - 180

/-- Latitude in degrees computed by `process_hdri` from the peak row `y`
and the image height. -/
def lat_deg (y height : ℕ) : ℚ :=
  -(((y : ℚ) * (-180)) / (height : ℚ) + 90)

/-- C1 counterexample: the claim says pixel (0, 0) maps to latitude +90°,
but on a (positive-height) image of height 2 the code maps row 0 to
latitude −90°, not +90°. -/
theorem C1_latitude_top_is_not_plus90 : lat_deg 0 2 ≠ 90 ∧ lat_deg 0 2 = -90 := by
  constructor <;> norm_num [lat_deg]

/-- C1 (amended): for every image of positive width and height, pixel (0, 0)
maps to longitude −180° and latitude −90°; every in-range column maps to
longitude < +180° (with the scale reaching +180° exactly at x = width), and
every in-range row maps to latitude < +90° (with the scale reaching +90°
exactly at y = height).  So the code's equirectangular convention is
x=0 → −180°, x=width → +180°, y=0 → −90° (bottom), y=height → +90° (top). -/
theorem C1_angular_boundary (width height : ℕ)
    (hw : 0 < width) (hh : 0 < height) :
    long_deg 0 width = -180 ∧ lat_deg 0 height = -90 ∧
    (∀ x : ℕ, x < width → long_deg x width < 180) ∧
    (∀ y : ℕ, y < height → lat_deg y height < 90) ∧
    long_deg width width = 180 ∧ lat_deg height height = 90 := by
  have hw0 : (0 : ℚ) < (width : ℚ) := by exact_mod_cast hw
  have hh0 : (0 : ℚ) < (height : ℚ) := by exact_mod_cast hh
  refine ⟨by simp [long_deg], by norm_num [lat_deg, hh0.ne.symm], ?_, ?_, ?_, ?_⟩
  · intro x hx
    have hx' : (x : ℚ) < (width : ℚ) := by exact_mod_cast hx
    have h1 : (x : ℚ) * 360 / (width : ℚ) < 360 := by
      rw [div_lt_iff hw0]
      nlinarith
    simp only [long_deg]
    linarith
  · intro y hy
    have hy' : (y : ℚ) < (height : ℚ) := by exact_mod_cast hy
    have h1 : (y : ℚ) * 180 / (height : ℚ) < 180 := by
      rw [div_lt_iff hh0]
      nlinarith
    have h2 : lat_deg y height = (y : ℚ) * 180 / (height : ℚ) - 90 := by
      simp only [lat_deg]
      ring
    rw [h2]
    linarith
  · simp only [long_deg]
    rw [mul_comm, mul_div_assoc, div_self hw0.ne.symm]
    norm_num
  · simp only [lat_deg]
    rw [mul_comm, mul_div_assoc, div_self hh0.ne.symm]
    norm_num

/-- Witness for `C1_angular_boundary` at a concrete 4×2 image. -/
theorem C1_angular_boundary_witness :
    0 < 4 ∧ 0 < 2 ∧
    (long_deg 0 4 = -180 ∧ lat_deg 0 2 = -90 ∧
    (∀ x : ℕ, x < 4 → long_deg x 4 < 180) ∧
    (∀ y : ℕ, y < 2 → lat_deg y 2 < 90) ∧
    long_deg 4 4 = 180 ∧ lat_deg 2 2 = 90) :=
  ⟨by norm_num, by norm_num, C1_angular_boundary 4 2 (by norm_num) (by norm_num)⟩

/-- C6: for every image of positive width and height and every in-bounds peak
pixel (x, y), the angular position satisfies longitude ∈ [−180, 180) and
latitude ∈ [−90, 90]. -/
theorem C6_angular_ranges (width height x y : ℕ)
    (hw : 0 < width) (hh : 0 < height) (hx : x < width) (hy : y < height) :
    -180 ≤ long_deg x width ∧ long_deg x width < 180 ∧
    -90 ≤ lat_deg y height ∧ lat_deg y height ≤ 90 := by
  have hw0 : (0 : ℚ) < (width : ℚ) := by exact_mod_cast hw
  have hh0 : (0 : ℚ) < (height : ℚ) := by exact_mod_cast hh
  have hx' : (x : ℚ) < (width : ℚ) := by exact_mod_cast hx
  have hy' : (y : ℚ) < (height : ℚ) := by exact_mod_cast hy
  have hxn : (0 : ℚ) ≤ (x : ℚ) := by positivity
  have hyn : (0 : ℚ) ≤ (y : ℚ) := by positivity
  have hlat : lat_deg y height = (y : ℚ) * 180 / (height : ℚ) - 90 := by
    simp only [lat_deg]; ring
  refine ⟨?_, ?_, ?_, ?_⟩
  · have : (0 : ℚ) ≤ (x : ℚ) * 360 / (width : ℚ) := by positivity
    simp only [long_deg]; linarith
  · have h1 : (x : ℚ) * 360 / (width : ℚ) < 360 := by
      rw [div_lt_iff hw0]; nlinarith
    simp only [long_deg]; linarith
  · have : (0 : ℚ) ≤ (y : ℚ) * 180 / (height : ℚ) := by positivity
    rw [hlat]; linarith
  · have h1 : (y : ℚ) * 180 / (height : ℚ) < 180 := by
      rw [div_lt_iff hh0]; nlinarith
    rw [hlat]; linarith

/-- Witness for `C6_angular_ranges` at a concrete 100×50 image, peak (75, 10). -/
theorem C6_angular_ranges_witness :
    0 < 100 ∧ 0 < 50 ∧ 75 < 100 ∧ 10 < 50 ∧
    (-180 ≤ long_deg 75 100 ∧ long_deg 75 100 < 180 ∧
     -90 ≤ lat_deg 10 50 ∧ lat_deg 10 50 ≤ 90) :=
  ⟨by norm_num, by norm_num, by norm_num, by norm_num,
    C6_angular_ranges 100 50 75 10 (by norm_num) (by norm_num) (by norm_num) (by norm_num)⟩

/-! ## Preview downscaling (invoke, lines 296-303)

`if org_width > 1024: new_width = 1024;
 new_height = int(org_height * (new_width / org_width));
 hdri_preview.scale(new_width, new_height)` -/

/-- Dimensions of the image actually analysed by `invoke`: widths above 1024
are rescaled to 1024 with height `int(org_height * (1024 / org_width))`
(Python `int` truncation on a non-negative value, i.e. floor); otherwise the
image is left at its original size. -/
def invoke_scaled_dims (org_width org_height : ℕ) : ℕ × ℕ :=
  if 1024 < org_width then
    (1024, ⌊(org_height : ℚ) * ((1024 : ℚ) / (org_width : ℚ))⌋₊)
  else
    (org_width, org_height)

/-- C10: widths above 1024 are downscaled to width exactly 1024 and height
`⌊original_height * 1024 / original_width⌋`; widths at most 1024 are left
unchanged. -/
theorem C10_downscale (w h : ℕ) :
    (1024 < w → invoke_scaled_dims w h = (1024, h * 1024 / w)) ∧
    (w ≤ 1024 → invoke_scaled_dims w h = (w, h)) := by
  constructor
  · intro hw
    have hfloor : ⌊(h : ℚ) * ((1024 : ℚ) / (w : ℚ))⌋₊ = h * 1024 / w := by
      have h1 : (h : ℚ) * ((1024 : ℚ) / (w : ℚ)) = ((h * 1024 : ℕ) : ℚ) / ((w : ℕ) : ℚ) := by
        push_cast
        ring
      rw [h1, Nat.floor_div_nat, Nat.floor_natCast]
    simp [invoke_scaled_dims, hw, hfloor]
  · intro hw
    simp [invoke_scaled_dims, not_lt.mpr hw]

/-- Witness for `C10_downscale`: a 2048×100 image is scaled to 1024×50, and a
1000×100 image is left unchanged. -/
theorem C10_downscale_witness :
    (1024 < 2048 ∧ invoke_scaled_dims 2048 100 = (1024, 50)) ∧
    (1000 ≤ 1024 ∧ invoke_scaled_dims 1000 100 = (1000, 100)) :=
  ⟨⟨by norm_num, by rw [(C10_downscale 2048 100).1 (by norm_num)]⟩,
   ⟨by norm_num, (C10_downscale 1000 100).2 (by norm_num)⟩⟩

/-! ## Ring masks (create_circular_mask, lines 161-174)

`dist_from_center = np.sqrt((X - center[0])**2 + (Y - center[1])**2)`
`mask = np.logical_and(dist_from_center <= radius,
                       dist_from_center >= (radius - thickness))` -/

/-- Distance of pixel (x, y) from the mask center (cx, cy), as computed by
`create_circular_mask`. -/
noncomputable def dist_from_center (cx cy x y : ℝ) : ℝ :=
  Real.sqrt ((x - cx) ^ 2 + (y - cy) ^ 2)

/-- Membership of pixel (x, y) in the ring mask built by
`create_circular_mask` for the given thickness, center and radius. -/
noncomputable def create_circular_mask (thickness cx cy radius x y : ℝ) : Prop :=
  dist_from_center cx cy x y ≤ radius ∧
    radius - thickness ≤ dist_from_center cx cy x y

/-- The point of the Euclidean plane with coordinates (a, b). -/
noncomputable def planePt (a b : ℝ) : EuclideanSpace ℝ (Fin 2) :=
  (WithLp.equiv 2 (Fin 2 → ℝ)).symm ![a, b]

/-- The distance computed by `create_circular_mask` is the Euclidean distance
between the pixel and the center. -/
theorem dist_from_center_eq_dist (cx cy x y : ℝ) :
    dist_from_center cx cy x y = dist (planePt x y) (planePt cx cy) := by
  rw [EuclideanSpace.dist_eq, Fin.sum_univ_two]
  simp only [planePt, WithLp.equiv_symm_pi_apply, Matrix.cons_val_zero,
    Matrix.cons_val_one, Matrix.head_cons, Real.dist_eq, sq_abs]
  rfl

/-- C5: a pixel belongs to the ring mask of outer radius R, thickness T and
center C exactly when its Euclidean distance to C lies in the closed interval
[R − T, R]; for center (0,0), radius 50, thickness 4, the pixel (48, 0) (at
distance 48) is included while the pixels (30, 0) and (52, 0) (at distances
30 and 52) are excluded. -/
theorem C5_ring_membership :
    (∀ thickness cx cy radius x y : ℝ,
      create_circular_mask thickness cx cy radius x y ↔
        dist (planePt x y) (planePt cx cy) ∈
          Set.Icc (radius - thickness) radius) ∧
    create_circular_mask 4 0 0 50 48 0 ∧
    ¬ create_circular_mask 4 0 0 50 30 0 ∧
    ¬ create_circular_mask 4 0 0 50 52 0 := by
  have hd : ∀ a : ℝ, 0 ≤ a → dist_from_center 0 0 a 0 = a := by
    intro a ha
    simp only [dist_from_center]
    rw [show (a - 0) ^ 2 + ((0 : ℝ) - 0) ^ 2 = a ^ 2 by ring, Real.sqrt_sq ha]
  refine ⟨?_, ?_, ?_, ?_⟩
  · intro thickness cx cy radius x y
    rw [create_circular_mask, dist_from_center_eq_dist, Set.mem_Icc]
    tauto
  · rw [create_circular_mask, hd 48 (by norm_num)]
    norm_num
  · rw [create_circular_mask, hd 30 (by norm_num)]
    norm_num
  · rw [create_circular_mask, hd 52 (by norm_num)]
    norm_num

/-! ## Painting the markers (process_hdri, lines 248-260)

`hdri_img[:, :, 0][circle_mask] = 1` … then the same for `point_mask`. -/

/-- An RGBA image buffer: row, column, channel (0 = R, 1 = G, 2 = B, 3 = A). -/
abbrev Img : Type := ℕ → ℕ → Fin 4 → ℝ

/-- One masked in-place channel assignment
`hdri_img[:, :, ch][mask] = v` (numpy boolean-mask indexing). -/
noncomputable def set_channel (img : Img) (ch : Fin 4) (v : ℝ)
    (mask : ℕ → ℕ → Prop) : Img :=
  fun y x c => if c = ch ∧ mask y x then v else img y x c

/-- Pointwise description of `set_channel`. -/
theorem set_channel_apply (img : Img) (ch : Fin 4) (v : ℝ)
    (mask : ℕ → ℕ → Prop) (y x : ℕ) (c : Fin 4) :
    set_channel img ch v mask y x c = if c = ch ∧ mask y x then v else img y x c :=
  rfl

/-- The buffer after `process_hdri` paints the two ring markers: the six
masked channel assignments of lines 253-260, in source order (circle ring
of radius 50 first, then the center ring of radius 5; thickness 4 each,
centered at the peak pixel (max_x, max_y)). -/
noncomputable def draw_markers (img : Img) (max_x max_y : ℕ) : Img :=
  set_channel (set_channel (set_channel (set_channel (set_channel (set_channel
    img
    0 1 (fun y x => create_circular_mask 4 max_x max_y 50 x y))
    1 0 (fun y x => create_circular_mask 4 max_x max_y 50 x y))
    2 0 (fun y x => create_circular_mask 4 max_x max_y 50 x y))
    0 1 (fun y x => create_circular_mask 4 max_x max_y 5 x y))
    1 0 (fun y x => create_circular_mask 4 max_x max_y 5 x y))
    2 0 (fun y x => create_circular_mask 4 max_x max_y 5 x y)

/-! ## Global-maximum search (process_hdri, lines 235-246)

`result = np.where(gray_img == np.amax(gray_img))`
`list_of_coordinates = list(zip(result[0], result[1]))`
`max_loc_new = list_of_coordinates[0]` -/

/-- The (row, column) coordinates of an h×w grid in row-major scan order:
the order in which `np.where` reports the indices of a C-ordered 2D array. -/
def rowMajorCoords (h w : ℕ) : List (ℕ × ℕ) :=
  (List.range h).flatMap fun r => (List.range w).map fun c => (r, c)

/-- `np.amax(g)` on the h×w field `g`: the maximum entry (`⊥` for an empty
grid, where numpy raises instead). -/
def amax {α : Type*} [LinearOrder α] (h w : ℕ) (g : ℕ → ℕ → α) : WithBot α :=
  ((rowMajorCoords h w).map fun p => g p.1 p.2).maximum

/-- `list(zip(*np.where(g == np.amax(g))))`: the row-major list of
coordinates whose entry equals the maximum. -/
def max_coords {α : Type*} [LinearOrder α] (h w : ℕ) (g : ℕ → ℕ → α) :
    List (ℕ × ℕ) :=
  (rowMajorCoords h w).filter fun p =>
    decide ((g p.1 p.2 : WithBot α) = amax h w g)

/-- `max_loc_new = list_of_coordinates[0]`: the first coordinate attaining
the maximum (`none` on an empty grid, where Python raises IndexError). -/
def max_loc {α : Type*} [LinearOrder α] (h w : ℕ) (g : ℕ → ℕ → α) :
    Option (ℕ × ℕ) :=
  (max_coords h w g).head?

/-- The head of a filtered list is the first element satisfying the
predicate. -/
theorem head?_filter_eq_find {β : Type*} (q : β → Bool) (l : List β) :
    (l.filter q).head? = l.find? q := by
  induction l with
  | nil => rfl
  | cons b l ih =>
    cases hq : q b <;> simp [List.filter_cons, hq, ih]

/-- Characterisation of membership in the row-major coordinate list. -/
theorem mem_rowMajorCoords (h w : ℕ) (p : ℕ × ℕ) :
    p ∈ rowMajorCoords h w ↔ p.1 < h ∧ p.2 < w := by
  simp only [rowMajorCoords, List.mem_flatMap, List.mem_map, List.mem_range]
  constructor
  · rintro ⟨r, hr, c, hc, rfl⟩
    exact ⟨hr, hc⟩
  · rintro ⟨h1, h2⟩
    exact ⟨p.1, h1, p.2, h2, Prod.mk.eta⟩

/-- C9: on any grid of positive height and width, the equality scan against
the maximum yields at least one coordinate, so taking the first candidate
succeeds and the selected coordinate is within the image bounds. -/
theorem C9_peak_search_total {α : Type*} [LinearOrder α] (h w : ℕ)
    (g : ℕ → ℕ → α) (hh : 0 < h) (hw : 0 < w) :
    ∃ p : ℕ × ℕ, max_loc h w g = some p ∧ p.1 < h ∧ p.2 < w := by
  have hmem : ((0 : ℕ), (0 : ℕ)) ∈ rowMajorCoords h w :=
    (mem_rowMajorCoords h w (0, 0)).mpr ⟨hh, hw⟩
  have hne : (rowMajorCoords h w).map (fun p => g p.1 p.2) ≠ [] := by
    simp only [ne_eq, List.map_eq_nil_iff]
    intro hnil
    rw [hnil] at hmem
    exact List.not_mem_nil _ hmem
  obtain ⟨m, hm⟩ := WithBot.ne_bot_iff_exists.mp
    (List.maximum_ne_bot_of_ne_nil hne)
  have hmmem := List.maximum_mem hm.symm
  rw [List.mem_map] at hmmem
  obtain ⟨p0, hp0, hgp0⟩ := hmmem
  have hp0f : p0 ∈ max_coords h w g := by
    rw [max_coords, List.mem_filter]
    refine ⟨hp0, ?_⟩
    simp only [decide_eq_true_eq, amax, ← hm, hgp0]
  cases e : (max_coords h w g).head? with
  | none =>
    rw [List.head?_eq_none_iff] at e
    rw [e] at hp0f
    exact absurd hp0f (List.not_mem_nil _)
  | some r =>
    have hrf : r ∈ max_coords h w g :=
      List.mem_of_mem_head? (by rw [e]; exact rfl)
    have hrm : r ∈ rowMajorCoords h w := List.mem_of_mem_filter hrf
    obtain ⟨h1, h2⟩ := (mem_rowMajorCoords h w r).mp hrm
    exact ⟨r, e, h1, h2⟩

/-- Witness for `C9_peak_search_total` on a concrete 2×3 constant grid. -/
theorem C9_peak_search_total_witness :
    0 < 2 ∧ 0 < 3 ∧
    ∃ p : ℕ × ℕ,
      max_loc 2 3 (fun _ _ => (7 : ℕ)) = some p ∧ p.1 < 2 ∧ p.2 < 3 :=
  ⟨by norm_num, by norm_num,
    C9_peak_search_total 2 3 (fun _ _ => (7 : ℕ)) (by norm_num) (by norm_num)⟩

/-- C4: when two distinct in-bounds pixels tie for the global maximum, the
search still returns a coordinate (ties are not an error), and the returned
coordinate is the first maximizer in row-major scan order: the row-major
enumeration splits as a prefix of non-maximizers followed by the selected
coordinate. -/
theorem C4_tie_break {α : Type*} [LinearOrder α] (h w : ℕ) (g : ℕ → ℕ → α)
    (p q : ℕ × ℕ) (_hpq : p ≠ q)
    (hp : p.1 < h ∧ p.2 < w) (_hq : q.1 < h ∧ q.2 < w)
    (hpm : (g p.1 p.2 : WithBot α) = amax h w g)
    (_hqm : (g q.1 q.2 : WithBot α) = amax h w g) :
    ∃ r : ℕ × ℕ, max_loc h w g = some r ∧
      (g r.1 r.2 : WithBot α) = amax h w g ∧
      ∃ l1 l2, rowMajorCoords h w = l1 ++ r :: l2 ∧
        ∀ s ∈ l1, (g s.1 s.2 : WithBot α) ≠ amax h w g := by
  have hfind : max_loc h w g =
      (rowMajorCoords h w).find? fun s =>
        decide ((g s.1 s.2 : WithBot α) = amax h w g) :=
    head?_filter_eq_find _ _
  have hsome : ((rowMajorCoords h w).find? fun s =>
      decide ((g s.1 s.2 : WithBot α) = amax h w g)).isSome :=
    List.find?_isSome.mpr
      ⟨p, (mem_rowMajorCoords h w p).mpr hp, by simp [hpm]⟩
  obtain ⟨r, hr⟩ := Option.isSome_iff_exists.mp hsome
  obtain ⟨hrP, l1, l2, hsplit, hall⟩ := List.find?_eq_some.mp hr
  refine ⟨r, by rw [hfind, hr], by simpa using hrP, l1, l2, hsplit, ?_⟩
  intro s hs
  have := hall s hs
  simpa using this

/-- Witness for `C4_tie_break` on a concrete 2×2 constant grid where all
four pixels tie: the first row-major maximizer (0, 0) is selected. -/
theorem C4_tie_break_witness :
    (((0, 0) : ℕ × ℕ) ≠ (0, 1) ∧
      (0 : ℕ) < 2 ∧ (0 : ℕ) < 2 ∧ (0 : ℕ) < 2 ∧ (1 : ℕ) < 2 ∧
      ((fun _ _ => (5 : ℕ)) (0 : ℕ) (0 : ℕ) : WithBot ℕ) =
        amax 2 2 (fun _ _ => (5 : ℕ)) ∧
      ((fun _ _ => (5 : ℕ)) (0 : ℕ) (1 : ℕ) : WithBot ℕ) =
        amax 2 2 (fun _ _ => (5 : ℕ))) ∧
    (∃ r : ℕ × ℕ, max_loc 2 2 (fun _ _ => (5 : ℕ)) = some r ∧
      ((fun _ _ => (5 : ℕ)) r.1 r.2 : WithBot ℕ) =
        amax 2 2 (fun _ _ => (5 : ℕ)) ∧
      ∃ l1 l2, rowMajorCoords 2 2 = l1 ++ r :: l2 ∧
        ∀ s ∈ l1,
          ((fun _ _ => (5 : ℕ)) s.1 s.2 : WithBot ℕ) ≠
            amax 2 2 (fun _ _ => (5 : ℕ))) :=
  ⟨⟨by decide, by decide, by decide, by decide, by decide, by decide, by decide⟩,
    C4_tie_break 2 2 (fun _ _ => (5 : ℕ)) (0, 0) (0, 1) (by decide)
      ⟨by decide, by decide⟩ ⟨by decide, by decide⟩ (by decide) (by decide)⟩

/-- C8: painting the markers leaves the alpha channel of every pixel
unchanged, leaves every channel of every pixel outside both ring masks
unchanged, and writes pure red (R=1, G=0, B=0) at every pixel inside either
ring mask. -/
theorem C8_paint_frame (img : Img) (mx my y x : ℕ) :
    draw_markers img mx my y x 3 = img y x 3 ∧
    ((¬ create_circular_mask 4 mx my 50 x y ∧
      ¬ create_circular_mask 4 mx my 5 x y) →
      ∀ c : Fin 4, draw_markers img mx my y x c = img y x c) ∧
    ((create_circular_mask 4 mx my 50 x y ∨
      create_circular_mask 4 mx my 5 x y) →
      draw_markers img mx my y x 0 = 1 ∧
      draw_markers img mx my y x 1 = 0 ∧
      draw_markers img mx my y x 2 = 0) := by
  have e30 : ((3 : Fin 4) = 0) = False := by decide
  have e31 : ((3 : Fin 4) = 1) = False := by decide
  have e32 : ((3 : Fin 4) = 2) = False := by decide
  have e01 : ((0 : Fin 4) = 1) = False := by decide
  have e02 : ((0 : Fin 4) = 2) = False := by decide
  have e10 : ((1 : Fin 4) = 0) = False := by decide
  have e12 : ((1 : Fin 4) = 2) = False := by decide
  have e20 : ((2 : Fin 4) = 0) = False := by decide
  have e21 : ((2 : Fin 4) = 1) = False := by decide
  refine ⟨?_, ?_, ?_⟩
  · simp [draw_markers, set_channel_apply, e30, e31, e32]
  · intro h c
    simp [draw_markers, set_channel_apply, h.1, h.2]
  · intro h
    rcases Classical.em (create_circular_mask 4 mx my 5 x y) with hp | hp
    · refine ⟨?_, ?_, ?_⟩ <;>
        simp [draw_markers, set_channel_apply, hp, e01, e02, e10, e12, e20, e21]
    · have hc : create_circular_mask 4 mx my 50 x y := by tauto
      refine ⟨?_, ?_, ?_⟩ <;>
        simp [draw_markers, set_channel_apply, hp, hc, e01, e02, e10, e12, e20, e21]

/-- Witness for `C8_paint_frame`: on a constant ½ buffer with peak (0, 0),
the pixel (0, 0) itself (distance 0) lies outside both rings, so every
channel there is unchanged. -/
theorem C8_paint_frame_witness :
    ((¬ create_circular_mask 4 (0 : ℕ) (0 : ℕ) 50 (0 : ℕ) (0 : ℕ) ∧
      ¬ create_circular_mask 4 (0 : ℕ) (0 : ℕ) 5 (0 : ℕ) (0 : ℕ)) ∧
     ∀ c : Fin 4,
       draw_markers (fun _ _ _ => (1 / 2 : ℝ)) 0 0 0 0 c = (1 / 2 : ℝ)) := by
  have hz : dist_from_center ((0 : ℕ) : ℝ) ((0 : ℕ) : ℝ) ((0 : ℕ) : ℝ) ((0 : ℕ) : ℝ) = 0 := by
    simp [dist_from_center]
  have hmask : ¬ create_circular_mask 4 (0 : ℕ) (0 : ℕ) 50 (0 : ℕ) (0 : ℕ) ∧
      ¬ create_circular_mask 4 (0 : ℕ) (0 : ℕ) 5 (0 : ℕ) (0 : ℕ) := by
    constructor <;>
      · rw [create_circular_mask, hz]
        norm_num
  exact ⟨hmask,
    (C8_paint_frame (fun _ _ _ => (1 / 2 : ℝ)) 0 0 0 0).2.1 hmask⟩

/-! ## Direction-to-rotation conversion (rotate, lines 10-46)

`x = cos(latitude) * cos(longitude); y = cos(latitude) * sin(longitude);
 z = sin(latitude)`; `vector = Vector([x, -y, z])`;
`angle = vector.angle(up_axis, 0)`; `axis = up_axis.cross(vector)`;
`euler = Matrix.Rotation(angle, 4, axis).to_euler()`.

The vector and matrix helpers live in Blender's `mathutils` library, an
external dependency of the repository; they are modelled here from their
documented semantics, which the spec also records: `Vector.angle` returns
the fallback argument only when an operand has zero length,
`Matrix.Rotation` with an axis that cannot be normalised yields the
identity matrix (the stable fallback), and `to_euler()` extracts XYZ Euler
angles, preferring the candidate triple with the smaller total rotation.
The float-epsilon threshold in the Euler extraction is modelled as an
exact zero test, as befits real arithmetic. -/

/-- A 3-component vector (mathutils `Vector`). -/
structure Vec3 where
  x : ℝ
  y : ℝ
  z : ℝ

/-- Euclidean length of a `Vec3`. -/
noncomputable def vlen (v : Vec3) : ℝ :=
  Real.sqrt (v.x ^ 2 + v.y ^ 2 + v.z ^ 2)

/-- Dot product of two `Vec3`. -/
noncomputable def dot3 (a b : Vec3) : ℝ :=
  a.x * b.x + a.y * b.y + a.z * b.z

/-- Cross product of two `Vec3` (mathutils `Vector.cross`). -/
noncomputable def cross3 (a b : Vec3) : Vec3 :=
  ⟨a.y * b.z - a.z * b.y, a.z * b.x - a.x * b.z, a.x * b.y - a.y * b.x⟩

/-- Modelled from the spec and the mathutils documentation:
`Vector.angle(other, fallback)` returns the unsigned angle in [0, π]
(`acos` of the normalised dot product), and the fallback only when one of
the vectors has zero length. -/
noncomputable def vec_angle (a b : Vec3) (fallback : ℝ) : ℝ :=
  if vlen a = 0 ∨ vlen b = 0 then fallback
  else Real.arccos (dot3 a b / (vlen a * vlen b))

/-- A 3×3 matrix with entry `mRC` at row R, column C. -/
structure Mat3 where
  m00 : ℝ
  m01 : ℝ
  m02 : ℝ
  m10 : ℝ
  m11 : ℝ
  m12 : ℝ
  m20 : ℝ
  m21 : ℝ
  m22 : ℝ

/-- The identity 3×3 matrix. -/
noncomputable def id3 : Mat3 :=
  ⟨1, 0, 0, 0, 1, 0, 0, 0, 1⟩

/-- Normalisation of a `Vec3` by its length. -/
noncomputable def normalize3 (v : Vec3) : Vec3 :=
  ⟨v.x / vlen v, v.y / vlen v, v.z / vlen v⟩

/-- Rotation matrix about the unit axis `n` by angle `t`
(Rodrigues form). -/
noncomputable def rodrigues (n : Vec3) (t : ℝ) : Mat3 :=
  ⟨(1 - Real.cos t) * n.x * n.x + Real.cos t,
   (1 - Real.cos t) * n.x * n.y - Real.sin t * n.z,
   (1 - Real.cos t) * n.x * n.z + Real.sin t * n.y,
   (1 - Real.cos t) * n.x * n.y + Real.sin t * n.z,
   (1 - Real.cos t) * n.y * n.y + Real.cos t,
   (1 - Real.cos t) * n.y * n.z - Real.sin t * n.x,
   (1 - Real.cos t) * n.x * n.z - Real.sin t * n.y,
   (1 - Real.cos t) * n.y * n.z + Real.sin t * n.x,
   (1 - Real.cos t) * n.z * n.z + Real.cos t⟩

/-- Modelled from the spec and the mathutils documentation:
`Matrix.Rotation(angle, 4, axis)` normalises the axis and builds the
axis-angle rotation matrix; when the axis cannot be normalised (zero
length) it yields the identity matrix — the stable fallback the spec
requires. -/
noncomputable def axis_angle_to_mat3 (axis : Vec3) (angle : ℝ) : Mat3 :=
  if vlen axis = 0 then id3 else rodrigues (normalize3 axis) angle

/-- Two-argument arctangent, with the usual conventions on the axes. -/
noncomputable def atan2 (y x : ℝ) : ℝ :=
  if 0 < x then Real.arctan (y / x)
  else if x < 0 then
    (if 0 ≤ y then Real.arctan (y / x) + Real.pi
     else Real.arctan (y / x) - Real.pi)
  else if 0 < y then Real.pi / 2
  else if y < 0 then -(Real.pi / 2)
  else 0

/-- Modelled from the spec and Blender's Euler extraction
(`mat3_normalized_to_eul2`, XYZ order, matrices stored column-major): two
candidate triples are computed and the one with the smaller sum of
absolute angles is returned, the first being preferred on ties. -/
noncomputable def mat3_to_euler (m : Mat3) : ℝ × ℝ × ℝ :=
  let cy := Real.sqrt (m.m00 ^ 2 + m.m10 ^ 2)
  let e1 : ℝ × ℝ × ℝ :=
    if 0 < cy then (atan2 m.m21 m.m22, atan2 (-m.m20) cy, atan2 m.m10 m.m00)
    else (atan2 (-m.m12) m.m11, atan2 (-m.m20) cy, 0)
  let e2 : ℝ × ℝ × ℝ :=
    if 0 < cy then
      (atan2 (-m.m21) (-m.m22), atan2 (-m.m20) (-cy), atan2 (-m.m10) (-m.m00))
    else e1
  if |e1.1| + |e1.2.1| + |e1.2.2| > |e2.1| + |e2.2.1| + |e2.2.2| then e2
  else e1

/-- The Direction-to-Rotation Converter: the pure angular core of
`rotate.execute` (lines 22-36), from longitude/latitude in degrees to the
XYZ Euler triple of the rotation aligning the up axis (0,0,1) with the
direction vector (with the documented y-axis sign flip). -/
noncomputable def to_rotation (lon_deg lat_deg : ℝ) : ℝ × ℝ × ℝ :=
  let longitude := lon_deg * (Real.pi / 180)
  let latitude := lat_deg * (Real.pi / 180)
  let x := Real.cos latitude * Real.cos longitude
  let y := Real.cos latitude * Real.sin longitude
  let z := Real.sin latitude
  let vector : Vec3 := ⟨x, -y, z⟩
  let up_axis : Vec3 := ⟨0, 0, 1⟩
  let angle := vec_angle vector up_axis 0
  let axis := cross3 up_axis vector
  mat3_to_euler (axis_angle_to_mat3 axis angle)

/-- Helper: atan2 at (0, 1). -/
theorem atan2_zero_one : atan2 0 1 = 0 := by
  simp [atan2, Real.arctan_zero]

/-- Helper: atan2 at (0, −1). -/
theorem atan2_zero_neg_one : atan2 0 (-1) = Real.pi := by
  have h1 : ¬ ((0 : ℝ) < -1) := by norm_num
  have h2 : (-1 : ℝ) < 0 := by norm_num
  simp [atan2, h1, h2, Real.arctan_zero]

/-- Helper: Euler extraction of the identity matrix is the zero triple. -/
theorem mat3_to_euler_id3 : mat3_to_euler id3 = (0, 0, 0) := by
  have h1 : Real.sqrt ((1 : ℝ) ^ 2 + (0 : ℝ) ^ 2) = 1 := by
    rw [show ((1 : ℝ) ^ 2 + (0 : ℝ) ^ 2) = 1 by norm_num, Real.sqrt_one]
  have hpi : |Real.pi| = Real.pi := abs_of_pos Real.pi_pos
  have hcond : ¬ ((0 : ℝ) > Real.pi + Real.pi + Real.pi) := by
    have := Real.pi_pos
    push_neg
    linarith
  simp [mat3_to_euler, id3, h1, neg_zero, atan2_zero_one, atan2_zero_neg_one,
    abs_zero, hpi, hcond]

/-- Helper: the length of the up axis is 1. -/
theorem vlen_up : vlen ⟨0, 0, 1⟩ = 1 := by
  rw [vlen]
  norm_num

/-- Helper: the angle of the up axis with itself is 0. -/
theorem vec_angle_up_up : vec_angle ⟨0, 0, 1⟩ ⟨0, 0, 1⟩ 0 = 0 := by
  rw [vec_angle]
  rw [if_neg]
  · rw [dot3, vlen_up]
    norm_num [Real.arccos_one]
  · rw [vlen_up]
    norm_num

/-- Helper: the cross product of the up axis with itself is zero. -/
theorem cross_up_up : cross3 ⟨0, 0, 1⟩ ⟨0, 0, 1⟩ = ⟨0, 0, 0⟩ := by
  rw [cross3]
  norm_num

/-- Helper: a zero axis yields the identity rotation matrix. -/
theorem axis_angle_to_mat3_zero_axis (angle : ℝ) :
    axis_angle_to_mat3 ⟨0, 0, 0⟩ angle = id3 := by
  rw [axis_angle_to_mat3, if_pos]
  rw [vlen]
  norm_num

/-- C2: at longitude 0°, latitude 90° the direction vector is exactly the
up axis, the cross product is the zero vector, and `to_rotation` returns
the identity rotation (the zero Euler triple) through the zero-axis
fallback — a defined result, not a failure. -/
theorem C2_identity_at_pole : to_rotation 0 90 = (0, 0, 0) := by
  have hl : (0 : ℝ) * (Real.pi / 180) = 0 := by ring
  have hlat : (90 : ℝ) * (Real.pi / 180) = Real.pi / 2 := by ring
  have hvec : (⟨Real.cos (Real.pi / 2) * Real.cos 0,
      -(Real.cos (Real.pi / 2) * Real.sin 0),
      Real.sin (Real.pi / 2)⟩ : Vec3) = ⟨0, 0, 1⟩ := by
    rw [Real.cos_pi_div_two, Real.sin_pi_div_two, Real.cos_zero, Real.sin_zero]
    norm_num
  rw [to_rotation]
  simp only [hl, hlat]
  rw [hvec, vec_angle_up_up, cross_up_up, axis_angle_to_mat3_zero_axis,
    mat3_to_euler_id3]

/-! ## Statefulness of rotate.execute (lines 18-44) -/

/-- The scene properties `rotate.execute` reads and writes
(`hdri_sa_props`). -/
structure SunProps where
  lon_deg : ℝ
  lat_deg : ℝ
  z_org : ℝ

/-- The scene state touched by `rotate.execute`: the addon properties and
the rotation of the 'HDRI Sun' object. -/
structure SceneState where
  props : SunProps
  sun_rotation_euler : ℝ × ℝ × ℝ

/-- `rotate.execute`: computes the Euler rotation from the stored
longitude/latitude, stores its z component in `z_org`, and writes the
rotation onto the sun object. -/
noncomputable def rotate_execute (s : SceneState) : SceneState :=
  { props :=
      { lon_deg := s.props.lon_deg
        lat_deg := s.props.lat_deg
        z_org := (to_rotation s.props.lon_deg s.props.lat_deg).2.2 }
    sun_rotation_euler := to_rotation s.props.lon_deg s.props.lat_deg }

/-- C7: the conversion is a deterministic function of the angular input —
two invocations from scene states that agree on longitude and latitude
(whatever the rest of the state) produce identical Euler output and
identical stored z-rotation. -/
theorem C7_deterministic (s1 s2 : SceneState)
    (hlon : s1.props.lon_deg = s2.props.lon_deg)
    (hlat : s1.props.lat_deg = s2.props.lat_deg) :
    (rotate_execute s1).sun_rotation_euler =
      (rotate_execute s2).sun_rotation_euler ∧
    (rotate_execute s1).props.z_org = (rotate_execute s2).props.z_org := by
  constructor <;> simp [rotate_execute, hlon, hlat]

/-- Witness for `C7_deterministic`: two states agreeing on the angles but
differing in `z_org` and in the object rotation give identical outputs. -/
theorem C7_deterministic_witness :
    ((⟨⟨90, 45, 0⟩, (0, 0, 0)⟩ : SceneState).props.lon_deg =
      (⟨⟨90, 45, 7⟩, (1, 2, 3)⟩ : SceneState).props.lon_deg ∧
     (⟨⟨90, 45, 0⟩, (0, 0, 0)⟩ : SceneState).props.lat_deg =
      (⟨⟨90, 45, 7⟩, (1, 2, 3)⟩ : SceneState).props.lat_deg) ∧
    ((rotate_execute ⟨⟨90, 45, 0⟩, (0, 0, 0)⟩).sun_rotation_euler =
      (rotate_execute ⟨⟨90, 45, 7⟩, (1, 2, 3)⟩).sun_rotation_euler ∧
     (rotate_execute ⟨⟨90, 45, 0⟩, (0, 0, 0)⟩).props.z_org =
      (rotate_execute ⟨⟨90, 45, 7⟩, (1, 2, 3)⟩).props.z_org) :=
  ⟨⟨rfl, rfl⟩, C7_deterministic ⟨⟨90, 45, 0⟩, (0, 0, 0)⟩ ⟨⟨90, 45, 7⟩, (1, 2, 3)⟩ rfl rfl⟩

/-! ## Frequency-domain smoothing (gaussian_blur, lines 176-208)

`ftimage = np.fft.fft2(gray_image); ftimage = np.fft.fftshift(ftimage);
 cy, cx = rows/2, cols/2;
 y = np.linspace(0, rows, rows); x = np.linspace(0, cols, cols);
 gmask = np.exp(-(((X-cx)/sigmax)**2 + ((Y-cy)/sigmay)**2));
 imagep = np.abs(np.fft.ifft2(ftimage * gmask))` -/

/-- The forward 2D discrete Fourier transform (`np.fft.fft2`). -/
noncomputable def fft2 (m n : ℕ) (f : Fin m → Fin n → ℂ)
    (k : Fin m) (l : Fin n) : ℂ :=
  ∑ a : Fin m, ∑ b : Fin n, f a b *
    Complex.exp (-(2 * (Real.pi : ℂ) * Complex.I) *
      ((((k : ℕ) : ℂ) * (((a : ℕ) : ℂ)) / ((m : ℕ) : ℂ)) +
       (((l : ℕ) : ℂ) * (((b : ℕ) : ℂ)) / ((n : ℕ) : ℂ))))

/-- The inverse 2D discrete Fourier transform (`np.fft.ifft2`), with
numpy's 1/(mn) normalisation. -/
noncomputable def ifft2 (m n : ℕ) (f : Fin m → Fin n → ℂ)
    (k : Fin m) (l : Fin n) : ℂ :=
  (1 / (((m : ℕ) : ℂ) * ((n : ℕ) : ℂ))) *
    ∑ a : Fin m, ∑ b : Fin n, f a b *
      Complex.exp ((2 * (Real.pi : ℂ) * Complex.I) *
        ((((k : ℕ) : ℂ) * (((a : ℕ) : ℂ)) / ((m : ℕ) : ℂ)) +
         (((l : ℕ) : ℂ) * (((b : ℕ) : ℂ)) / ((n : ℕ) : ℂ))))

/-- The index map of `np.fft.fftshift` along an axis of length m:
output index k reads input index (k − ⌊m/2⌋) mod m. -/
def shift_idx (m : ℕ) (k : Fin m) : Fin m :=
  ⟨((k : ℕ) + (m - m / 2)) % m, Nat.mod_lt _ k.pos⟩

/-- `np.fft.fftshift` on a 2D array: the zero-frequency component is moved
to the center of the grid. -/
noncomputable def fftshift2 (m n : ℕ) (f : Fin m → Fin n → ℂ)
    (k : Fin m) (l : Fin n) : ℂ :=
  f (shift_idx m k) (shift_idx n l)

/-- Value of `np.linspace(0, n, n)` at index i: n evenly spaced points
from 0 to n INCLUSIVE (step n/(n−1)); the single point 0 when n = 1. -/
noncomputable def linspace_val (n : ℕ) (i : Fin n) : ℝ :=
  if n = 1 then 0 else ((i : ℕ) : ℝ) * ((n : ℕ) : ℝ) / (((n : ℕ) : ℝ) - 1)

/-- The Gaussian frequency mask actually built by `gaussian_blur`: the
Gaussian is sampled at the `linspace(0, n, n)` positions, centred at
(cols/2, rows/2). -/
noncomputable def gmask (rows cols : ℕ) (sigma : ℝ)
    (j : Fin rows) (i : Fin cols) : ℝ :=
  Real.exp (-(((linspace_val cols i - ((cols : ℕ) : ℝ) / 2) / sigma) ^ 2 +
              ((linspace_val rows j - ((rows : ℕ) : ℝ) / 2) / sigma) ^ 2))

/-- `gaussian_blur(gray_image, sigma)`: DFT, shift, multiply by the mask,
inverse DFT, complex magnitude. -/
noncomputable def gaussian_blur (rows cols : ℕ)
    (g : Fin rows → Fin cols → ℝ) (sigma : ℝ)
    (j : Fin rows) (i : Fin cols) : ℝ :=
  Complex.abs (ifft2 rows cols
    (fun a b =>
      fftshift2 rows cols (fft2 rows cols fun p q => ((g p q : ℝ) : ℂ)) a b *
        ((gmask rows cols sigma a b : ℝ) : ℂ)) j i)

/-- Modelled from the spec (refinement reference): the same pipeline with
the Gaussian mask evaluated at the integer frequency-grid positions
(fx, fy) = (i, j) relative to the grid center (cx, cy) = (cols/2, rows/2),
as the spec's mask formula `exp(-(((fx-cx)/sigma)^2 + ((fy-cy)/sigma)^2))`
reads. -/
noncomputable def spec_gmask (rows cols : ℕ) (sigma : ℝ)
    (j : Fin rows) (i : Fin cols) : ℝ :=
  Real.exp (-(((((i : ℕ) : ℝ) - ((cols : ℕ) : ℝ) / 2) / sigma) ^ 2 +
              ((((j : ℕ) : ℝ) - ((rows : ℕ) : ℝ) / 2) / sigma) ^ 2))

/-- Modelled from the spec: the reference frequency-domain pipeline of the
claim — DFT, zero-frequency shift to the center, multiplication by the
Gaussian mask at the integer grid positions, inverse DFT, magnitude. -/
noncomputable def spec_smooth (rows cols : ℕ)
    (g : Fin rows → Fin cols → ℝ) (sigma : ℝ)
    (j : Fin rows) (i : Fin cols) : ℝ :=
  Complex.abs (ifft2 rows cols
    (fun a b =>
      fftshift2 rows cols (fft2 rows cols fun p q => ((g p q : ℝ) : ℂ)) a b *
        ((spec_gmask rows cols sigma a b : ℝ) : ℂ)) j i)

/-- Amended reference pipeline: as `spec_smooth`, but with the Gaussian
mask sampled at the frequency positions `i * n/(n−1)` (numpy
`linspace(0, n, n)`, endpoints 0 and n included) instead of the integer
grid positions. -/
noncomputable def spec_smooth_sampled (rows cols : ℕ)
    (g : Fin rows → Fin cols → ℝ) (sigma : ℝ)
    (j : Fin rows) (i : Fin cols) : ℝ :=
  Complex.abs (ifft2 rows cols
    (fun a b =>
      fftshift2 rows cols (fft2 rows cols fun p q => ((g p q : ℝ) : ℂ)) a b *
        ((Real.exp (-(((linspace_val cols b - ((cols : ℕ) : ℝ) / 2) / sigma) ^ 2 +
            ((linspace_val rows a - ((rows : ℕ) : ℝ) / 2) / sigma) ^ 2)) : ℝ) : ℂ)) j i)

/-- A 1×2 field with a single unit impulse in its first entry. -/
noncomputable def delta12 : Fin 1 → Fin 2 → ℝ :=
  fun _ b => if b = 0 then 1 else 0

/-- The DFT of the 1×2 unit impulse is identically 1. -/
theorem fft2_delta12 (k : Fin 1) (l : Fin 2) :
    fft2 1 2 (fun p q => ((delta12 p q : ℝ) : ℂ)) k l = 1 := by
  have d0 : delta12 0 0 = 1 := rfl
  have d1 : delta12 0 1 = 0 := rfl
  simp [fft2, Fin.sum_univ_one, Fin.sum_univ_two, d0, d1, Fin.val_zero,
    Complex.exp_zero]

/-- Evaluation of the masked pipeline on the 1×2 impulse at output entry
(0, 1), for an arbitrary mask: the result is (mask₀₀ − mask₀₁)/2. -/
theorem pipeline12_entry (mask : Fin 1 → Fin 2 → ℝ) :
    ifft2 1 2 (fun a b =>
      fftshift2 1 2 (fft2 1 2 fun p q => ((delta12 p q : ℝ) : ℂ)) a b *
        ((mask a b : ℝ) : ℂ)) 0 1 =
    (1 / 2) * (((mask 0 0 : ℝ) : ℂ) - ((mask 0 1 : ℝ) : ℂ)) := by
  have hshift : ∀ (a : Fin 1) (b : Fin 2),
      fftshift2 1 2 (fft2 1 2 fun p q => ((delta12 p q : ℝ) : ℂ)) a b = 1 := by
    intro a b
    rw [fftshift2, fft2_delta12]
  have hexp : Complex.exp (2 * (Real.pi : ℂ) * Complex.I * (1 / 2)) = -1 := by
    rw [show (2 * (Real.pi : ℂ) * Complex.I * (1 / 2)) =
        (Real.pi : ℂ) * Complex.I by ring]
    exact Complex.exp_pi_mul_I
  simp only [ifft2, Fin.sum_univ_one, Fin.sum_univ_two, hshift, one_mul,
    Fin.val_zero, Fin.val_one, Nat.cast_zero, Nat.cast_one, Nat.cast_ofNat,
    mul_zero, zero_mul, zero_div, add_zero, zero_add, mul_one,
    Complex.exp_zero]
  rw [hexp]
  ring

/-- The code's mask takes the same value at both entries of a 1×2 grid
(the linspace positions 0 and 2 are symmetric about the center 1). -/
theorem gmask_12_const : gmask 1 2 1 0 0 = gmask 1 2 1 0 1 := by
  norm_num [gmask, linspace_val, Fin.val_zero, Fin.val_one]

/-- `gaussian_blur` on the 1×2 impulse vanishes at entry (0, 1). -/
theorem gaussian_blur_12_entry : gaussian_blur 1 2 delta12 1 0 1 = 0 := by
  rw [gaussian_blur, pipeline12_entry (gmask 1 2 1), gmask_12_const]
  simp

/-- The spec's integer-grid reference pipeline does NOT vanish at entry
(0, 1) on the 1×2 impulse. -/
theorem spec_smooth_12_entry : spec_smooth 1 2 delta12 1 0 1 ≠ 0 := by
  rw [spec_smooth, pipeline12_entry (spec_gmask 1 2 1)]
  have h54 : spec_gmask 1 2 1 0 0 = Real.exp (-(5 / 4)) := by
    norm_num [spec_gmask, Fin.val_zero]
  have h14 : spec_gmask 1 2 1 0 1 = Real.exp (-(1 / 4)) := by
    norm_num [spec_gmask, Fin.val_zero, Fin.val_one]
  rw [h54, h14, ne_eq, map_eq_zero]
  intro h
  rcases mul_eq_zero.mp h with h2 | h2
  · norm_num at h2
  · rw [sub_eq_zero] at h2
    have h3 := Complex.ofReal_inj.mp h2
    rw [Real.exp_eq_exp] at h3
    norm_num at h3

/-- C3 counterexample: `gaussian_blur` differs from the claim's reference
frequency-domain pipeline (Gaussian mask at the integer frequency-grid
positions relative to the grid center) already on the 1×2 impulse field
with sigma = 1 — the code samples its mask at the `linspace(0, n, n)`
positions 0 and 2 rather than the grid positions 0 and 1, so the two
pipelines return different fields. -/
theorem C3_smooth_ne_reference :
    gaussian_blur 1 2 delta12 1 ≠ spec_smooth 1 2 delta12 1 := by
  intro h
  have h1 := congrFun (congrFun h 0) 1
  rw [gaussian_blur_12_entry] at h1
  exact spec_smooth_12_entry h1.symm

/-- C3 (amended): for every 2D field and every sigma, `gaussian_blur`
equals the reference frequency-domain pipeline — DFT, zero-frequency shift
to the center, multiplication by the Gaussian mask, inverse DFT, magnitude
— where the mask is sampled at the `linspace(0, n, n)` frequency positions
`i·n/(n−1)` (endpoints 0 and n), not at the integer grid positions. -/
theorem C3_smooth_eq_sampled_reference (rows cols : ℕ)
    (g : Fin rows → Fin cols → ℝ) (sigma : ℝ) :
    gaussian_blur rows cols g sigma = spec_smooth_sampled rows cols g sigma :=
  rfl
